import Mathlib

/-!
Verification model of the `stream-proxy` repository (Rust).

The shared application state (`src/state.rs`) keeps three `DashMap`s; since all
claims are settled against sequential executions of the handlers, each `DashMap`
is shallowly embedded as an association list (`List (key × value)`) together
with lookup / insert / remove operations whose observable behaviour matches the
map API used by the source (`get`, `insert` replacing an existing entry,
`remove`).  Atomic `u32`/`u64` counters are embedded as `Nat` with explicit
`% 2^32` where the source's `fetch_add` may wrap; the guarded
`fetch_update` of `decrement_connections` is embedded by its

compare-and-update result.  Side effects that are not part of the state maps
(`stop_tx.send(true)`) are recorded in an explicit `stops_sent` history list.
-/

namespace StreamProxy

/-- Lookup in an association-list model of a `DashMap`: first entry with the
given key (keys are unique in a real map, so first = only). -/
def alookup {K V : Type} [DecidableEq K] : List (K × V) → K → Option V
  | [], _ => none
  | p :: rest, k => if p.1 = k then some p.2 else alookup rest k

/-- Removal of a key, modelling `DashMap::remove`. -/
def aremove {K V : Type} [DecidableEq K] (k : K) : List (K × V) → List (K × V)
  | [] => []
  | p :: rest => if p.1 = k then aremove k rest else p :: aremove k rest

/-- Insert-or-replace, modelling `DashMap::insert`. -/
def ainsert {K V : Type} [DecidableEq K] (k : K) (v : V) (m : List (K × V)) :
    List (K × V) :=
  (k, v) :: aremove k m

@[simp]
theorem alookup_nil {K V : Type} [DecidableEq K] (k : K) :
    alookup ([] : List (K × V)) k = none := rfl

@[simp]
theorem alookup_cons {K V : Type} [DecidableEq K] (p : K × V) (m : List (K × V)) (k : K) :
    alookup (p :: m) k = if p.1 = k then some p.2 else alookup m k := rfl

theorem alookup_aremove {K V : Type} [DecidableEq K] (k k' : K) (m : List (K × V)) :
    alookup (aremove k m) k' = if k' = k then none else alookup m k' := by
  induction m with
  | nil => simp [aremove]
  | cons p rest ih =>
    simp only [aremove]
    by_cases hp : p.1 = k
    · rw [if_pos hp, ih]
      by_cases hk : k' = k
      · simp [hk]
      · have hpk : ¬ p.1 = k' := fun h => hk (h.symm.trans hp)
        simp [hk, hpk]
    · rw [if_neg hp]
      simp only [alookup_cons]
      by_cases hpk : p.1 = k'
      · have hk : ¬ k' = k := fun h => hp (hpk.trans h)
        simp [hpk, hk]
      · simp [hpk, ih]

theorem alookup_ainsert {K V : Type} [DecidableEq K] (k k' : K) (v : V) (m : List (K × V)) :
    alookup (ainsert k v m) k' = if k' = k then some v else alookup m k' := by
  simp only [ainsert, alookup_cons]
  by_cases h : k' = k
  · simp [h]
  · have hk : ¬ k = k' := fun e => h e.symm
    simp [hk, h, alookup_aremove]

theorem alookup_isSome_iff_mem_keys {K V : Type} [DecidableEq K] (m : List (K × V)) (k : K) :
    (alookup m k).isSome ↔ k ∈ m.map Prod.fst := by
  induction m with
  | nil => simp
  | cons p rest ih =>
    by_cases h : p.1 = k
    · simp [h]
    · have h' : ¬ k = p.1 := fun e => h e.symm
      simp [h, h', ih]

theorem alookup_eq_none_iff_not_mem_keys {K V : Type} [DecidableEq K]
    (m : List (K × V)) (k : K) :
    alookup m k = none ↔ k ∉ m.map Prod.fst := by
  rw [← alookup_isSome_iff_mem_keys]
  cases alookup m k <;> simp

/-! ### Data model (`src/models.rs`, `src/state.rs`)

`u64`/`u32` fields are embedded as `Nat`; `U32_MOD` marks where the source's
`AtomicU32::fetch_add` can wrap. -/

/-- Wrap-around modulus of the `u32` counters. -/
def U32_MOD : Nat := 2 ^ 32

/-- `StreamUrl` (`src/models.rs`): an upstream endpoint bound to an account. -/
structure StreamUrl where
  account_id : Nat
  url : String
deriving DecidableEq

/-- `StreamConfig` (`src/models.rs`): one stream variant with its ordered urls. -/
structure StreamConfig where
  id : Nat
  urls : List StreamUrl
deriving DecidableEq

/-- `ChannelConfig` (`src/models.rs`). -/
structure ChannelConfig where
  streams : List StreamConfig
deriving DecidableEq

/-- `AccountConfig` (`src/models.rs`). -/
structure AccountConfig where
  max_connections : Nat
deriving DecidableEq

/-- `ChannelRouting` (`src/state.rs`). -/
structure ChannelRouting where
  streams : List StreamConfig
deriving DecidableEq

/-- `AccountState` (`src/state.rs`): the two atomic `u32` counters. -/
structure AccountState where
  max_connections : Nat
  active_connections : Nat
deriving DecidableEq

/-- `ActiveChannel` (`src/state.rs`).  The fields are embedded as declared in
the source: plain (non-atomic, immutable) `stream_id`, `account_id`, `url`.
The `clients` DashMap is embedded as the list of registered client ids; the
monotonic timestamp, broadcast sender, byte counter and the stop handle are
modelled outside the struct (the stop history lives in `AppState.stops_sent`,
the byte counter in the `fetch_upstream` model). -/
structure ActiveChannel where
  stream_id : Nat
  account_id : Nat
  url : String
  clients : List String
deriving DecidableEq

/-- `AppState` (`src/state.rs`): the three DashMaps, plus an explicit history
of channel ids on which `stop_tx.send(true)` was called (the observable effect
of "stopping" a channel). -/
structure AppState where
  channel_routes : List (String × ChannelRouting)
  active_channels : List (String × ActiveChannel)
  accounts : List (Nat × AccountState)
  stops_sent : List String
deriving DecidableEq

/-! ### Stream selection (`src/state.rs`, `select_stream` / `select_next_stream`) -/

/-- The admissibility test performed inside both selection loops
(`src/state.rs:62-71`): account registered ⇒ `max == 0 || current < max`,
account unregistered ⇒ allowed (no limit). -/
def is_admissible (accounts : List (Nat × AccountState)) (account_id : Nat) : Bool :=
  match alookup accounts account_id with
  | some account =>
    decide (account.max_connections = 0) || decide (account.active_connections < account.max_connections)
  | none => true

/-- Inner loop of `select_stream`: walk one stream's `urls` in order. -/
def select_in_urls (accounts : List (Nat × AccountState)) (sid : Nat) :
    List StreamUrl → Option (Nat × Nat × String)
  | [] => none
  | u :: rest =>
    if is_admissible accounts u.account_id then some (sid, u.account_id, u.url)
    else select_in_urls accounts sid rest

/-- Outer loop of `select_stream`: walk `streams` in order. -/
def select_in_streams (accounts : List (Nat × AccountState)) :
    List StreamConfig → Option (Nat × Nat × String)
  | [] => none
  | s :: rest =>
    match select_in_urls accounts s.id s.urls with
    | some r => some r
    | none => select_in_streams accounts rest

/-- `AppState::select_stream` (`src/state.rs:58-75`). -/
def AppState.select_stream (st : AppState) (channel_id : String) :
    Option (Nat × Nat × String) :=
  match alookup st.channel_routes channel_id with
  | some routing => select_in_streams st.accounts routing.streams
  | none => none

/-- Inner loop of `select_next_stream` (`src/state.rs:87-104`), threading the
`past_failed` flag; returns the result together with the flag's final value. -/
def next_in_urls (accounts : List (Nat × AccountState)) (fsid faid sid : Nat) :
    Bool → List StreamUrl → Option (Nat × Nat × String) × Bool
  | past, [] => (none, past)
  | past, u :: rest =>
    if sid = fsid ∧ u.account_id = faid then
      next_in_urls accounts fsid faid sid true rest
    else if past = false then
      next_in_urls accounts fsid faid sid past rest
    else if is_admissible accounts u.account_id then
      (some (sid, u.account_id, u.url), past)
    else
      next_in_urls accounts fsid faid sid past rest

/-- Outer loop of `select_next_stream`. -/
def next_in_streams (accounts : List (Nat × AccountState)) (fsid faid : Nat) :
    Bool → List StreamConfig → Option (Nat × Nat × String)
  | _, [] => none
  | past, s :: rest =>
    match next_in_urls accounts fsid faid s.id past s.urls with
    | (some r, _) => some r
    | (none, past') => next_in_streams accounts fsid faid past' rest

/-- `AppState::select_next_stream` (`src/state.rs:78-107`). -/
def AppState.select_next_stream (st : AppState) (channel_id : String)
    (failed_stream_id failed_account_id : Nat) : Option (Nat × Nat × String) :=
  match alookup st.channel_routes channel_id with
  | some routing =>
    next_in_streams st.accounts failed_stream_id failed_account_id false routing.streams
  | none => none

/-! ### Connection counters (`src/state.rs:109-131`) -/

/-- `AppState::increment_connections`: no-op on an unregistered account,
otherwise `fetch_add(1)` on the `u32` counter (wrapping). -/
def increment_connections (account_id : Nat) (accounts : List (Nat × AccountState)) :
    List (Nat × AccountState) :=
  match alookup accounts account_id with
  | some account =>
    ainsert account_id
      ⟨account.max_connections, (account.active_connections + 1) % U32_MOD⟩ accounts
  | none => accounts

/-- `AppState::decrement_connections`: no-op on an unregistered account,
otherwise the guarded `fetch_update` that refuses to go below 0. -/
def decrement_connections (account_id : Nat) (accounts : List (Nat × AccountState)) :
    List (Nat × AccountState) :=
  match alookup accounts account_id with
  | some account =>
    if 0 < account.active_connections then
      ainsert account_id
        ⟨account.max_connections, account.active_connections - 1⟩ accounts
    else accounts
  | none => accounts

/-! ### Control surface (`src/control.rs`) -/

/-- `put_channel` (`src/control.rs:10-23`): replace the route. -/
def put_channel (st : AppState) (channel_id : String) (config : ChannelConfig) : AppState :=
  { st with channel_routes := ainsert channel_id ⟨config.streams⟩ st.channel_routes }

/-- `delete_channel` (`src/control.rs:25-41`): remove the route; if an active
channel was registered, remove it, send the stop signal and release its
`account_id`'s slot. -/
def delete_channel (st : AppState) (channel_id : String) : AppState :=
  match alookup st.active_channels channel_id with
  | some active =>
    { channel_routes := aremove channel_id st.channel_routes,
      active_channels := aremove channel_id st.active_channels,
      accounts := decrement_connections active.account_id st.accounts,
      stops_sent := channel_id :: st.stops_sent }
  | none => { st with channel_routes := aremove channel_id st.channel_routes }

/-- `put_account` (`src/control.rs:43-67`): update `max_connections` in place
for an existing account, insert with `active_connections = 0` otherwise. -/
def put_account (st : AppState) (account_id : Nat) (config : AccountConfig) : AppState :=
  match alookup st.accounts account_id with
  | some existing =>
    { st with accounts :=
        ainsert account_id ⟨config.max_connections, existing.active_connections⟩ st.accounts }
  | none =>
    { st with accounts :=
        ainsert account_id ⟨config.max_connections, 0⟩ st.accounts }

/-- `SyncRequest` (`src/models.rs`): the two payload `HashMap`s, embedded as
the lists of entries the sync handler iterates over.  Account keys are the raw
strings of the JSON object. -/
structure SyncRequest where
  channels : List (String × ChannelConfig)
  accounts : List (String × AccountConfig)

/-- One step of sync's first loop (`src/control.rs:81-91`): for a currently
routed id not in the payload, remove the route and stop the active channel. -/
def sync_remove_channel (new_ids : List String) (st : AppState) (id : String) : AppState :=
  if new_ids.contains id then st
  else
    match alookup st.active_channels id with
    | some active =>
      { channel_routes := aremove id st.channel_routes,
        active_channels := aremove id st.active_channels,
        accounts := decrement_connections active.account_id st.accounts,
        stops_sent := id :: st.stops_sent }
    | none => { st with channel_routes := aremove id st.channel_routes }

/-- One step of sync's channel upsert loop (`src/control.rs:94-101`). -/
def sync_insert_channel (st : AppState) (p : String × ChannelConfig) : AppState :=
  { st with channel_routes := ainsert p.1 ⟨p.2.streams⟩ st.channel_routes }

/-- Channel half of `sync` (`src/control.rs:73-101`): prune routed channels
missing from the payload, then upsert every payload channel. -/
def sync_channels_phase (st : AppState) (req : SyncRequest) : AppState :=
  let new_ids := req.channels.map Prod.fst
  let old_ids := st.channel_routes.map Prod.fst
  let st1 := old_ids.foldl (sync_remove_channel new_ids) st
  req.channels.foldl sync_insert_channel st1

/-- One step of sync's account upsert loop (`src/control.rs:120-139`):
non-parseable keys are skipped; existing accounts keep their live
`active_connections`, new accounts start at `0`.  `parse` embeds
`str::parse::<u64>` and is kept abstract. -/
def sync_upsert_account (parse : String → Option Nat) (st : AppState)
    (p : String × AccountConfig) : AppState :=
  match parse p.1 with
  | some id =>
    match alookup st.accounts id with
    | some existing =>
      { st with accounts :=
          ainsert id ⟨p.2.max_connections, existing.active_connections⟩ st.accounts }
    | none =>
      { st with accounts := ainsert id ⟨p.2.max_connections, 0⟩ st.accounts }
  | none => st

/-- One step of sync's account prune loop (`src/control.rs:110-117`). -/
def sync_remove_account (new_account_ids : List Nat) (st : AppState) (id : Nat) : AppState :=
  if new_account_ids.contains id then st
  else { st with accounts := aremove id st.accounts }

/-- Account half of `sync` (`src/control.rs:103-139`): prune accounts whose id
is not among the parseable payload keys, then upsert the payload accounts. -/
def sync_accounts_phase (parse : String → Option Nat) (st : AppState) (req : SyncRequest) :
    AppState :=
  let new_account_ids := req.accounts.filterMap (fun p => parse p.1)
  let old_account_ids := st.accounts.map Prod.fst
  let st1 := old_account_ids.foldl (sync_remove_account new_account_ids) st
  req.accounts.foldl (sync_upsert_account parse) st1

/-- `sync` (`src/control.rs:69-145`), run sequentially: the channel phase
followed by the account phase. -/
def sync (parse : String → Option Nat) (st : AppState) (req : SyncRequest) : AppState :=
  sync_accounts_phase parse (sync_channels_phase st req) req

/-! ### Upstream engine (`src/upstream.rs`) -/

/-- `MAX_FAILOVERS` (`src/upstream.rs:11`). -/
def MAX_FAILOVERS : Nat := 10

/-- `start_channel` (`src/upstream.rs:18-62`): build the `ActiveChannel`,
acquire the account slot, register it, and return it (the spawned task's
behaviour is modelled by `failover_step` / `upstream_exit_cleanup`). -/
def start_channel (st : AppState) (channel_id : String) (stream_id account_id : Nat)
    (url : String) : AppState × ActiveChannel :=
  let active : ActiveChannel := ⟨stream_id, account_id, url, []⟩
  let st1 := { st with accounts := increment_connections account_id st.accounts }
  ({ st1 with active_channels := ainsert channel_id active st1.active_channels }, active)

/-- The task-local mutable variables of `upstream_loop`
(`src/upstream.rs:64-75`): the current `(stream_id, account_id, url)` cursor
and `failover_count`. -/
structure UpstreamLocals where
  stream_id : Nat
  account_id : Nat
  url : String
  failover_count : Nat
deriving DecidableEq

/-- Result of one failover step of `upstream_loop`. -/
inductive FailoverOutcome where
  /-- a next pair was selected; the loop retries `fetch_upstream` with it -/
  | retry (loc : UpstreamLocals)
  /-- `failover_count` reached `MAX_FAILOVERS`; the loop breaks -/
  | exit_max_failovers (loc : UpstreamLocals)
  /-- `select_next_stream` returned `None`; the loop breaks -/
  | exit_no_stream (loc : UpstreamLocals)
deriving DecidableEq

/-- The failover branch of `upstream_loop` (`src/upstream.rs:95-123`): taken
when `fetch_upstream` returned an error and no stop was observed.  Note that
the step mutates only the task-local variables: the registered `ActiveChannel`
is not touched (its fields are not mutable in the source). -/
def failover_step (st : AppState) (channel_id : String) (loc : UpstreamLocals) :
    AppState × FailoverOutcome :=
  let fc := loc.failover_count + 1
  if MAX_FAILOVERS ≤ fc then
    (st, .exit_max_failovers { loc with failover_count := fc })
  else
    let st1 := { st with accounts := decrement_connections loc.account_id st.accounts }
    match st1.select_next_stream channel_id loc.stream_id loc.account_id with
    | some (nsid, naid, nurl) =>
      ({ st1 with accounts := increment_connections naid st1.accounts },
        .retry ⟨nsid, naid, nurl, fc⟩)
    | none => (st1, .exit_no_stream { loc with failover_count := fc })

/-- The cleanup run when `upstream_loop` exits (`src/upstream.rs:126-129`):
release the slot of the task-local `account_id` and deregister the channel. -/
def upstream_exit_cleanup (st : AppState) (channel_id : String) (account_id : Nat) :
    AppState :=
  { st with
    accounts := decrement_connections account_id st.accounts,
    active_channels := aremove channel_id st.active_channels }

/-! ### `fetch_upstream` (`src/upstream.rs:132-190`)

The network side is external; the function's behaviour is driven by the
response status and by the sequence of events its `select!` loop observes:
a data read, a read error, a stop-signal change, or — at the end of the event
list — the end of the byte stream (`next()` returning `None`).  Byte contents
are opaque, so a chunk is a `List Nat`. -/

/-- `CHUNK_SIZE` (`src/upstream.rs:10`). -/
def CHUNK_SIZE : Nat := 188 * 1024

/-- One event observed by `fetch_upstream`'s multiplexed wait. -/
inductive FetchEvent where
  /-- `Some(Ok(data))` from the byte stream -/
  | data (d : List Nat)
  /-- `Some(Err(e))` from the byte stream -/
  | readErr (e : String)
  /-- `stop_rx.changed()` fired -/
  | stop
deriving DecidableEq

/-- Rust `Result<(), String>`. -/
inductive FetchOutcome where
  | ok
  | err (msg : String)
deriving DecidableEq

/-- What a run of `fetch_upstream` produced: the chunks published to the
broadcast sender in order, the total added to `bytes_transferred`, and the
returned `Result`. -/
structure FetchResult where
  chunks : List (List Nat)
  bytes : Nat
  outcome : FetchOutcome
deriving DecidableEq

/-- The inner `while buffer.len() >= CHUNK_SIZE` loop
(`src/upstream.rs:165-172`): slice `CHUNK_SIZE`-byte chunks off the front of
the buffer; returns the published chunks and the remaining buffer. -/
def flushChunks (buf : List Nat) : List (List Nat) × List Nat :=
  if h : CHUNK_SIZE ≤ buf.length then
    have : buf.length - CHUNK_SIZE < buf.length := by
      have hpos : 0 < CHUNK_SIZE := by decide
      omega
    let rest := flushChunks (buf.drop CHUNK_SIZE)
    (buf.take CHUNK_SIZE :: rest.1, rest.2)
  else ([], buf)
termination_by buf.length
decreasing_by simpa using this

/-- The `loop { select! { ... } }` of `fetch_upstream` (`src/upstream.rs:154-189`),
carrying the accumulation buffer.  The source adds `CHUNK_SIZE` to
`bytes_transferred` per full chunk and the remainder's length at end of
stream. -/
def fetch_loop (buf : List Nat) : List FetchEvent → FetchResult
  | [] =>
    if buf.isEmpty then ⟨[], 0, .err "stream ended"⟩
    else ⟨[buf], buf.length, .err "stream ended"⟩
  | .stop :: _ => ⟨[], 0, .ok⟩
  | .readErr e :: _ => ⟨[], 0, .err ("read error: " ++ e)⟩
  | .data d :: rest =>
    let fl := flushChunks (buf ++ d)
    let r := fetch_loop fl.2 rest
    ⟨fl.1 ++ r.chunks, fl.1.length * CHUNK_SIZE + r.bytes, r.outcome⟩

/-- `StatusCode::is_success`: `2xx`. -/
def is_success_status (status : Nat) : Bool :=
  decide (200 ≤ status) && decide (status < 300)

/-- `fetch_upstream` (`src/upstream.rs:132-190`) after a successful connect:
a non-2xx status is an error before anything is read or published; otherwise
the read loop runs with an empty buffer. -/
def fetch_upstream (status : Nat) (events : List FetchEvent) : FetchResult :=
  if is_success_status status then fetch_loop [] events
  else ⟨[], 0, .err ("HTTP " ++ toString status)⟩

/-! ### Client session (`src/stream.rs`) -/

/-- `ts_null_packet` (`src/stream.rs:17-24`): 188 zero bytes with the four
header bytes set. -/
def ts_null_packet : List Nat :=
  ((((List.replicate 188 0).set 0 0x47).set 1 0x1F).set 2 0xFF).set 3 0x10

/-- One event observed by the streaming body's `select!`
(`src/stream.rs:116-142`). -/
inductive SessionEvent where
  /-- `rx.recv()` returned a chunk -/
  | recv (chunk : List Nat)
  /-- `RecvError::Lagged(n)` -/
  | lagged (n : Nat)
  /-- `RecvError::Closed` -/
  | closed
  /-- the 500 ms keepalive interval ticked -/
  | tick
deriving DecidableEq

/-- The packets yielded by the streaming body for a sequence of observed
events (`src/stream.rs:110-145`): received chunks are forwarded, lag is
logged and skipped, `Closed` breaks the loop, and every tick yields the TS
null packet. -/
def client_session_body : List SessionEvent → List (List Nat)
  | [] => []
  | .recv c :: rest => c :: client_session_body rest
  | .lagged _ :: rest => client_session_body rest
  | .closed :: _ => []
  | .tick :: rest => ts_null_packet :: client_session_body rest

/-- The response body variants of `stream_channel`. -/
inductive BodyKind where
  /-- a plain text body -/
  | text (s : String)
  /-- the streaming body built from the broadcast subscription -/
  | stream
deriving DecidableEq

/-- The pieces of the HTTP response that `stream_channel` sets explicitly. -/
structure HttpResponse where
  status : Nat
  content_type : Option String
  cache_control : Option String
  connection : Option String
  body : BodyKind
deriving DecidableEq

/-- The `503 Service Unavailable` response (`src/stream.rs:66`); headers added
by the framework's `IntoResponse` are not modelled. -/
def no_streams_response : HttpResponse :=
  ⟨503, none, none, none, .text "No streams available"⟩

/-- The `200 OK` streaming response (`src/stream.rs:147-153`). -/
def ok_stream_response : HttpResponse :=
  ⟨200, some "video/mp2t", some "no-cache", some "keep-alive", .stream⟩

/-- `stream_channel` (`src/stream.rs:53-154`): attach to the registered
`ActiveChannel`, or select a pair and start one; `503` only when neither is
possible.  The fresh uuid v4 is an external input (`client_id`). -/
def stream_channel (st : AppState) (channel_id client_id : String) :
    AppState × HttpResponse :=
  match alookup st.active_channels channel_id with
  | some existing =>
    let active' := { existing with clients := client_id :: existing.clients }
    ({ st with active_channels := ainsert channel_id active' st.active_channels },
      ok_stream_response)
  | none =>
    match st.select_stream channel_id with
    | none => (st, no_streams_response)
    | some (sid, aid, url) =>
      let started := start_channel st channel_id sid aid url
      let active' := { started.2 with clients := client_id :: started.2.clients }
      ({ started.1 with
          active_channels := ainsert channel_id active' started.1.active_channels },
        ok_stream_response)

/-! ### Spec-side selection policy

These definitions follow the wording of the specification ("iterate `streams`
in declaration order; within each, iterate `urls` in declaration order; return
the first `(stream, url)` whose account is admissible"), to be compared with
the loop embeddings above. -/

/-- The concatenation of a routing's `(stream_id, account_id, url)` pairs in
declaration order — the global failover order of the channel. -/
def flat_pairs (streams : List StreamConfig) : List (Nat × Nat × String) :=
  streams.flatMap (fun s => s.urls.map (fun u => (s.id, u.account_id, u.url)))

/-- Spec wording of `select_stream`: the first admissible pair of the
declaration-order walk. -/
def spec_select_stream (st : AppState) (channel_id : String) :
    Option (Nat × Nat × String) :=
  (alookup st.channel_routes channel_id).bind
    (fun routing =>
      (flat_pairs routing.streams).find? (fun p => is_admissible st.accounts p.2.1))

/-- Spec wording of the skip in `select_next_stream`: drop all pairs up to and
including the (first) pair matching `(failed_stream_id, failed_account_id)`,
returning the remaining suffix; `none` when no pair matches (fail closed). -/
def drop_through_match (fsid faid : Nat) :
    List (Nat × Nat × String) → Option (List (Nat × Nat × String))
  | [] => none
  | p :: rest =>
    if p.1 = fsid ∧ p.2.1 = faid then some rest else drop_through_match fsid faid rest

/-- The claim's wording of `select_next_stream`: same ordered walk, skip
through the matching pair, return the first admissible pair strictly after
it. -/
def spec_select_next_stream (st : AppState) (channel_id : String)
    (fsid faid : Nat) : Option (Nat × Nat × String) :=
  (alookup st.channel_routes channel_id).bind
    (fun routing =>
      (drop_through_match fsid faid (flat_pairs routing.streams)).bind
        (fun suffix => suffix.find? (fun p => is_admissible st.accounts p.2.1)))

/-- Amended wording of `select_next_stream`: as `spec_select_next_stream`, but
pairs matching the failed `(stream_id, account_id)` are skipped even after the
first match, so the result is the first admissible pair after the first match
that does not itself match the failed pair. -/
def amended_select_next_stream (st : AppState) (channel_id : String)
    (fsid faid : Nat) : Option (Nat × Nat × String) :=
  (alookup st.channel_routes channel_id).bind
    (fun routing =>
      (drop_through_match fsid faid (flat_pairs routing.streams)).bind
        (fun suffix => suffix.find?
          (fun p => !(decide (p.1 = fsid) && decide (p.2.1 = faid))
                      && is_admissible st.accounts p.2.1)))

/-! #### `select_stream` refines the spec walk -/

theorem select_in_urls_eq_find (accounts : List (Nat × AccountState)) (sid : Nat)
    (urls : List StreamUrl) :
    select_in_urls accounts sid urls =
      (urls.map (fun u => (sid, u.account_id, u.url))).find?
        (fun p => is_admissible accounts p.2.1) := by
  induction urls with
  | nil => rfl
  | cons u rest ih =>
    by_cases h : is_admissible accounts u.account_id
    · simp [select_in_urls, List.find?_cons, h]
    · simp only [Bool.not_eq_true] at h
      simp [select_in_urls, List.find?_cons, h, ih]

theorem select_in_streams_eq_find (accounts : List (Nat × AccountState))
    (streams : List StreamConfig) :
    select_in_streams accounts streams =
      (flat_pairs streams).find? (fun p => is_admissible accounts p.2.1) := by
  induction streams with
  | nil => rfl
  | cons s rest ih =>
    simp only [select_in_streams, flat_pairs, List.flatMap_cons, List.find?_append,
      select_in_urls_eq_find, ih]
    cases (s.urls.map (fun u => (s.id, u.account_id, u.url))).find?
        (fun p => is_admissible accounts p.2.1) with
    | none => simp [flat_pairs]
    | some r => simp

/-- C4: `select_stream` walks the channel's streams in declaration order and
each stream's urls in declaration order and returns the first pair whose
account is admissible (absent, `max == 0`, or `active < max`); it returns
`none` iff the channel is unrouted or no pair is admissible. -/
theorem c4_select_stream_first_admissible (st : AppState) (channel_id : String) :
    st.select_stream channel_id = spec_select_stream st channel_id
    ∧ (∀ aid, is_admissible st.accounts aid = true ↔
        (alookup st.accounts aid = none ∨
          ∃ acc, alookup st.accounts aid = some acc ∧
            (acc.max_connections = 0 ∨ acc.active_connections < acc.max_connections)))
    ∧ (st.select_stream channel_id = none ↔
        (alookup st.channel_routes channel_id = none ∨
          ∃ routing, alookup st.channel_routes channel_id = some routing ∧
            ∀ p ∈ flat_pairs routing.streams,
              is_admissible st.accounts p.2.1 = false)) := by
  refine ⟨?_, ?_, ?_⟩
  · unfold AppState.select_stream spec_select_stream
    cases alookup st.channel_routes channel_id with
    | none => rfl
    | some routing => simp [select_in_streams_eq_find]
  · intro aid
    unfold is_admissible
    cases h : alookup st.accounts aid with
    | none => simp
    | some acc => simp [h]
  · unfold AppState.select_stream
    cases h : alookup st.channel_routes channel_id with
    | none => simp [h]
    | some routing =>
      simp only [select_in_streams_eq_find, h, List.find?_eq_none, Bool.not_eq_true]
      constructor
      · intro hall
        exact Or.inr ⟨routing, rfl, hall⟩
      · rintro (hc | ⟨r, hr, hall⟩)
        · exact absurd hc (by simp)
        · cases Option.some.inj hr
          exact hall

/-! #### `select_next_stream` as a single walk over the flattened pairs -/

/-- The nested loops of `select_next_stream` as one walk over the flattened
pair list, threading `past_failed`. -/
def next_walk (accounts : List (Nat × AccountState)) (fsid faid : Nat) :
    Bool → List (Nat × Nat × String) → Option (Nat × Nat × String) × Bool
  | past, [] => (none, past)
  | past, p :: rest =>
    if p.1 = fsid ∧ p.2.1 = faid then next_walk accounts fsid faid true rest
    else if past = false then next_walk accounts fsid faid past rest
    else if is_admissible accounts p.2.1 then (some p, past)
    else next_walk accounts fsid faid past rest

theorem next_in_urls_eq_walk (accounts : List (Nat × AccountState))
    (fsid faid sid : Nat) (past : Bool) (urls : List StreamUrl) :
    next_in_urls accounts fsid faid sid past urls =
      next_walk accounts fsid faid past
        (urls.map (fun u => (sid, u.account_id, u.url))) := by
  induction urls generalizing past with
  | nil => rfl
  | cons u rest ih => simp only [next_in_urls, next_walk, List.map_cons, ih]

theorem next_walk_append (accounts : List (Nat × AccountState)) (fsid faid : Nat)
    (past : Bool) (l₁ l₂ : List (Nat × Nat × String)) :
    next_walk accounts fsid faid past (l₁ ++ l₂) =
      match next_walk accounts fsid faid past l₁ with
      | (some r, past') => (some r, past')
      | (none, past') => next_walk accounts fsid faid past' l₂ := by
  induction l₁ generalizing past with
  | nil => simp [next_walk]
  | cons p rest ih =>
    simp only [List.cons_append, next_walk]
    by_cases hm : p.1 = fsid ∧ p.2.1 = faid
    · rw [if_pos hm, if_pos hm]
      exact ih true
    · rw [if_neg hm, if_neg hm]
      by_cases hp : past = false
      · rw [if_pos hp, if_pos hp]
        exact ih past
      · rw [if_neg hp, if_neg hp]
        by_cases ha : is_admissible accounts p.2.1
        · rw [if_pos ha, if_pos ha]
        · rw [if_neg ha, if_neg ha]
          exact ih past

theorem next_in_streams_eq_walk (accounts : List (Nat × AccountState))
    (fsid faid : Nat) (past : Bool) (streams : List StreamConfig) :
    next_in_streams accounts fsid faid past streams =
      (next_walk accounts fsid faid past (flat_pairs streams)).1 := by
  induction streams generalizing past with
  | nil => rfl
  | cons s rest ih =>
    simp only [next_in_streams, next_in_urls_eq_walk, flat_pairs, List.flatMap_cons,
      next_walk_append]
    cases h : next_walk accounts fsid faid past
        (s.urls.map (fun u => (s.id, u.account_id, u.url))) with
    | mk r past' =>
      cases r with
      | none => simp [ih, flat_pairs]
      | some v => simp

theorem next_walk_true (accounts : List (Nat × AccountState)) (fsid faid : Nat)
    (l : List (Nat × Nat × String)) :
    next_walk accounts fsid faid true l =
      (l.find? (fun p => !(decide (p.1 = fsid) && decide (p.2.1 = faid))
                  && is_admissible accounts p.2.1), true) := by
  induction l with
  | nil => rfl
  | cons p rest ih =>
    by_cases hm : p.1 = fsid ∧ p.2.1 = faid
    · have hpred : (!(decide (p.1 = fsid) && decide (p.2.1 = faid))
          && is_admissible accounts p.2.1) = false := by
        simp [hm.1, hm.2]
      simp [next_walk, hm, List.find?_cons, hpred, ih]
    · have hd : (decide (p.1 = fsid) && decide (p.2.1 = faid)) = false := by
        rcases not_and_or.mp hm with h | h <;> simp [h]
      by_cases ha : is_admissible accounts p.2.1
      · have hpred : (!(decide (p.1 = fsid) && decide (p.2.1 = faid))
            && is_admissible accounts p.2.1) = true := by rw [hd, ha]; rfl
        simp only [List.find?_cons, hpred]
        simp [next_walk, hm, ha]
      · simp only [Bool.not_eq_true] at ha
        have hpred : (!(decide (p.1 = fsid) && decide (p.2.1 = faid))
            && is_admissible accounts p.2.1) = false := by rw [hd, ha]; rfl
        simp only [List.find?_cons, hpred]
        simp [next_walk, hm, ha, ih]

theorem next_walk_false (accounts : List (Nat × AccountState)) (fsid faid : Nat)
    (l : List (Nat × Nat × String)) :
    next_walk accounts fsid faid false l =
      match drop_through_match fsid faid l with
      | none => (none, false)
      | some suffix => next_walk accounts fsid faid true suffix := by
  induction l with
  | nil => rfl
  | cons p rest ih =>
    by_cases hm : p.1 = fsid ∧ p.2.1 = faid
    · simp [next_walk, drop_through_match, hm]
    · simp [next_walk, drop_through_match, hm, ih]

/-- C5 (counterexample): the claim's walk — skip up to and including the
matching pair, then return the first admissible pair strictly after it — does
not describe `select_next_stream` when a later pair also matches the failed
`(stream_id, account_id)`.  With one stream `10` whose urls both use account
`1` (unregistered, hence admissible), after `(10, 1)` fails the claim's walk
returns the second url, but the code skips every matching pair and returns
`none`. -/
theorem c5_counterexample :
    AppState.select_next_stream
        ⟨[("ch", ⟨[⟨10, [⟨1, "http://a"⟩, ⟨1, "http://b"⟩]⟩]⟩)], [], [], []⟩
        "ch" 10 1 = none
    ∧ spec_select_next_stream
        ⟨[("ch", ⟨[⟨10, [⟨1, "http://a"⟩, ⟨1, "http://b"⟩]⟩]⟩)], [], [], []⟩
        "ch" 10 1 = some (10, 1, "http://b") := by
  constructor <;> rfl

/-- C5 (amended): `select_next_stream` performs the same ordered walk as
`select_stream`, skips all pairs up to and including the first pair matching
`(failed_stream_id, failed_account_id)` and additionally skips every later
pair matching it, and returns the first admissible non-matching pair strictly
after the first match; if no pair in the current routing matches the failed
pair, it returns `none` (fail closed). -/
theorem c5_select_next_stream_amended (st : AppState) (channel_id : String)
    (fsid faid : Nat) :
    st.select_next_stream channel_id fsid faid =
      amended_select_next_stream st channel_id fsid faid := by
  unfold AppState.select_next_stream amended_select_next_stream
  cases alookup st.channel_routes channel_id with
  | none => rfl
  | some routing =>
    simp only [next_in_streams_eq_walk, next_walk_false, Option.some_bind]
    cases drop_through_match fsid faid (flat_pairs routing.streams) with
    | none => simp
    | some suffix => simp [next_walk_true]

/-! #### Counter safety (C3, C10) -/

theorem alookup_mem {K V : Type} [DecidableEq K] (m : List (K × V)) (k : K) (v : V) :
    alookup m k = some v → (k, v) ∈ m := by
  induction m with
  | nil => intro h; cases h
  | cons p rest ih =>
    intro h
    by_cases hp : p.1 = k
    · simp only [alookup_cons, if_pos hp] at h
      cases h
      subst hp
      exact List.mem_cons.mpr (Or.inl rfl)
    · simp only [alookup_cons, if_neg hp] at h
      exact List.mem_cons_of_mem _ (ih h)

theorem mem_aremove {K V : Type} [DecidableEq K] (k : K) (p : K × V) (m : List (K × V)) :
    p ∈ aremove k m → p ∈ m := by
  induction m with
  | nil => intro h; cases h
  | cons q rest ih =>
    by_cases hq : q.1 = k
    · simp only [aremove, if_pos hq]
      intro h
      exact List.mem_cons_of_mem _ (ih h)
    · simp only [aremove, if_neg hq]
      intro h
      rcases List.mem_cons.mp h with h | h
      · exact h ▸ List.mem_cons_self _ _
      · exact List.mem_cons_of_mem _ (ih h)

/-- A single increment or decrement of an account's `active_connections`, as
issued by the engine and the control surface. -/
inductive ConnOp where
  | inc (account_id : Nat)
  | dec (account_id : Nat)
deriving DecidableEq

/-- Apply one counter operation to the accounts map. -/
def apply_conn_op (accounts : List (Nat × AccountState)) : ConnOp → List (Nat × AccountState)
  | .inc a => increment_connections a accounts
  | .dec a => decrement_connections a accounts

/-- Apply a sequence of counter operations. -/
def apply_conn_ops (accounts : List (Nat × AccountState)) (ops : List ConnOp) :
    List (Nat × AccountState) :=
  ops.foldl apply_conn_op accounts

theorem apply_conn_op_range (accounts : List (Nat × AccountState)) (op : ConnOp)
    (h : ∀ p ∈ accounts, (p : Nat × AccountState).2.active_connections < U32_MOD) :
    ∀ p ∈ apply_conn_op accounts op, (p : Nat × AccountState).2.active_connections < U32_MOD := by
  have hmod : 0 < U32_MOD := by decide
  cases op with
  | inc a =>
    cases hl : alookup accounts a with
    | none =>
      have heq : apply_conn_op accounts (.inc a) = accounts := by
        simp [apply_conn_op, increment_connections, hl]
      rw [heq]; exact h
    | some acc =>
      have heq : apply_conn_op accounts (.inc a)
          = ainsert a ⟨acc.max_connections, (acc.active_connections + 1) % U32_MOD⟩
              accounts := by
        simp [apply_conn_op, increment_connections, hl]
      rw [heq]
      intro p hp
      rcases List.mem_cons.mp hp with rfl | hp
      · exact Nat.mod_lt _ hmod
      · exact h p (mem_aremove _ _ _ hp)
  | dec a =>
    cases hl : alookup accounts a with
    | none =>
      have heq : apply_conn_op accounts (.dec a) = accounts := by
        simp [apply_conn_op, decrement_connections, hl]
      rw [heq]; exact h
    | some acc =>
      by_cases hpos : 0 < acc.active_connections
      · have heq : apply_conn_op accounts (.dec a)
            = ainsert a ⟨acc.max_connections, acc.active_connections - 1⟩ accounts := by
          simp [apply_conn_op, decrement_connections, hl, hpos]
        rw [heq]
        intro p hp
        rcases List.mem_cons.mp hp with rfl | hp
        · have hacc := h _ (alookup_mem _ _ _ hl)
          simp only at hacc ⊢
          omega
        · exact h p (mem_aremove _ _ _ hp)
      · have heq : apply_conn_op accounts (.dec a) = accounts := by
          simp [apply_conn_op, decrement_connections, hl, hpos]
        rw [heq]; exact h

theorem apply_conn_ops_range (ops : List ConnOp) (accounts : List (Nat × AccountState))
    (h : ∀ p ∈ accounts, (p : Nat × AccountState).2.active_connections < U32_MOD) :
    ∀ p ∈ apply_conn_ops accounts ops,
      (p : Nat × AccountState).2.active_connections < U32_MOD := by
  induction ops generalizing accounts with
  | nil => exact h
  | cons op rest ih => exact ih _ (apply_conn_op_range accounts op h)

/-- C3: `decrement_connections` never underflows — on a missing account or a
zero counter the map is left unchanged, on a positive counter it decreases it
by exactly one (touching no other account), and under any sequence of
increments and decrements every stored counter stays inside the `u32` range
(no wrapped-around value is ever observed). -/
theorem c3_decrement_connections_no_underflow (accounts : List (Nat × AccountState))
    (account_id : Nat) :
    (alookup accounts account_id = none →
      decrement_connections account_id accounts = accounts)
    ∧ (∀ m, alookup accounts account_id = some ⟨m, 0⟩ →
        decrement_connections account_id accounts = accounts)
    ∧ (∀ m n, alookup accounts account_id = some ⟨m, n + 1⟩ →
        alookup (decrement_connections account_id accounts) account_id = some ⟨m, n⟩
        ∧ ∀ b, b ≠ account_id →
            alookup (decrement_connections account_id accounts) b = alookup accounts b)
    ∧ (∀ ops : List ConnOp,
        (∀ p ∈ accounts, (p : Nat × AccountState).2.active_connections < U32_MOD) →
        ∀ p ∈ apply_conn_ops accounts ops,
          (p : Nat × AccountState).2.active_connections < U32_MOD) := by
  refine ⟨?_, ?_, ?_, ?_⟩
  · intro h
    simp [decrement_connections, h]
  · intro m h
    simp [decrement_connections, h]
  · intro m n h
    simp only [decrement_connections, h, Nat.succ_sub_one, if_pos (Nat.succ_pos n)]
    constructor
    · simp [alookup_ainsert]
    · intro b hb
      simp [alookup_ainsert, hb]
  · intro ops h
    exact apply_conn_ops_range ops accounts h

/-- C3 witness at a concrete accounts map. -/
theorem c3_decrement_witness :
    decrement_connections 3 [(1, (⟨5, 0⟩ : AccountState)), (2, ⟨5, 3⟩)]
        = [(1, ⟨5, 0⟩), (2, ⟨5, 3⟩)]
    ∧ decrement_connections 1 [(1, (⟨5, 0⟩ : AccountState)), (2, ⟨5, 3⟩)]
        = [(1, ⟨5, 0⟩), (2, ⟨5, 3⟩)]
    ∧ alookup (decrement_connections 2 [(1, (⟨5, 0⟩ : AccountState)), (2, ⟨5, 3⟩)]) 2
        = some ⟨5, 2⟩
    ∧ ∀ p ∈ apply_conn_ops [(1, (⟨5, 0⟩ : AccountState)), (2, ⟨5, 3⟩)]
          [ConnOp.inc 2, ConnOp.dec 1, ConnOp.dec 2],
        (p : Nat × AccountState).2.active_connections < U32_MOD := by
  have h3 := c3_decrement_connections_no_underflow [(1, (⟨5, 0⟩ : AccountState)), (2, ⟨5, 3⟩)] 3
  have h1 := c3_decrement_connections_no_underflow [(1, (⟨5, 0⟩ : AccountState)), (2, ⟨5, 3⟩)] 1
  have h2 := c3_decrement_connections_no_underflow [(1, (⟨5, 0⟩ : AccountState)), (2, ⟨5, 3⟩)] 2
  exact ⟨h3.1 rfl, h1.2.1 5 rfl, (h2.2.2.1 5 2 rfl).1, h2.2.2.2 _ (by decide)⟩

/-- C10: on an account id absent from the accounts map, both
`increment_connections` and `decrement_connections` are no-ops (no entry is
created, no counter changes); registering the account afterwards — via
`put_account` or the account-upsert step of `sync` — creates it with
`active_connections = 0`, and `put_account` does not touch the registered
active channels. -/
theorem c10_unregistered_account_untracked (st : AppState) (account_id : Nat)
    (config : AccountConfig) :
    alookup st.accounts account_id = none →
      increment_connections account_id st.accounts = st.accounts
      ∧ decrement_connections account_id st.accounts = st.accounts
      ∧ alookup (put_account st account_id config).accounts account_id
          = some ⟨config.max_connections, 0⟩
      ∧ (put_account st account_id config).active_channels = st.active_channels
      ∧ ∀ (parse : String → Option Nat) (k : String) (cfg : AccountConfig),
          parse k = some account_id →
          alookup (sync_upsert_account parse st (k, cfg)).accounts account_id
            = some ⟨cfg.max_connections, 0⟩ := by
  intro h
  refine ⟨?_, ?_, ?_, ?_, ?_⟩
  · simp [increment_connections, h]
  · simp [decrement_connections, h]
  · simp [put_account, h, alookup_ainsert]
  · simp [put_account, h]
  · intro parse k cfg hk
    simp [sync_upsert_account, hk, h, alookup_ainsert]

/-- C10 witness at a concrete state with account `1` unregistered. -/
theorem c10_witness :
    increment_connections 1 [(2, (⟨5, 1⟩ : AccountState))] = [(2, ⟨5, 1⟩)]
    ∧ decrement_connections 1 [(2, (⟨5, 1⟩ : AccountState))] = [(2, ⟨5, 1⟩)]
    ∧ alookup (put_account ⟨[], [], [(2, ⟨5, 1⟩)], []⟩ 1 ⟨7⟩).accounts 1 = some ⟨7, 0⟩
    ∧ (put_account ⟨[], [], [(2, ⟨5, 1⟩)], []⟩ 1 ⟨7⟩).active_channels = []
    ∧ alookup (sync_upsert_account (fun s => if s = "1" then some 1 else none)
          ⟨[], [], [(2, ⟨5, 1⟩)], []⟩ ("1", ⟨4⟩)).accounts 1 = some ⟨4, 0⟩ := by
  have h := c10_unregistered_account_untracked ⟨[], [], [(2, ⟨5, 1⟩)], []⟩ 1 ⟨7⟩ rfl
  have h' := c10_unregistered_account_untracked ⟨[], [], [(2, ⟨5, 1⟩)], []⟩ 1 ⟨4⟩ rfl
  exact ⟨h.1, h.2.1, h.2.2.1, h.2.2.2.1,
    h'.2.2.2.2 (fun s => if s = "1" then some 1 else none) "1" ⟨4⟩ (by simp)⟩

set_option maxRecDepth 4000 in
/-- C9: on every keepalive tick (as long as the loop has not been ended by a
`Closed` broadcast error) the body yields, unconditionally, exactly the
188-byte TS null packet: byte 0 `0x47`, byte 1 `0x1F`, byte 2 `0xFF`, byte 3
`0x10`, bytes 4 through 187 `0x00`. -/
theorem c9_keepalive_unconditional (pre post : List SessionEvent)
    (h : SessionEvent.closed ∉ pre) :
    client_session_body (pre ++ SessionEvent.tick :: post)
        = client_session_body pre ++ ts_null_packet :: client_session_body post
    ∧ ts_null_packet.length = 188
    ∧ ts_null_packet[0]? = some 0x47
    ∧ ts_null_packet[1]? = some 0x1F
    ∧ ts_null_packet[2]? = some 0xFF
    ∧ ts_null_packet[3]? = some 0x10
    ∧ List.drop 4 ts_null_packet = List.replicate 184 0 := by
  refine ⟨?_, by decide, by decide, by decide, by decide, by decide, by decide⟩
  induction pre with
  | nil => rfl
  | cons e rest ih =>
    have hrest : SessionEvent.closed ∉ rest := fun hc => h (List.mem_cons_of_mem _ hc)
    cases e with
    | recv c => simp [client_session_body, ih hrest]
    | lagged n => simp [client_session_body, ih hrest]
    | closed => exact absurd (List.mem_cons_self _ _) h
    | tick => simp [client_session_body, ih hrest]

/-- C9 witness: a tick after one data chunk yields the null packet. -/
theorem c9_witness :
    client_session_body [SessionEvent.recv [1], SessionEvent.tick]
        = [[1], ts_null_packet]
    ∧ ts_null_packet.length = 188 := by
  have h := c9_keepalive_unconditional [SessionEvent.recv [1]] [] (by decide)
  exact ⟨rfl, h.2.1⟩

/-- C8: `GET /stream/{channel_id}` responds `503` with body
`"No streams available"` iff no Active Channel is registered for the channel
and `select_stream` returns `none`; in every other case it responds `200` with
`Content-Type: video/mp2t`, `Cache-Control: no-cache`,
`Connection: keep-alive` and the streaming body. -/
theorem c8_stream_channel_response (st : AppState) (channel_id client_id : String) :
    ((stream_channel st channel_id client_id).2
        = ⟨503, none, none, none, .text "No streams available"⟩
      ↔ (alookup st.active_channels channel_id = none
          ∧ st.select_stream channel_id = none))
    ∧ ((stream_channel st channel_id client_id).2
        = ⟨200, some "video/mp2t", some "no-cache", some "keep-alive", .stream⟩
      ↔ ¬ (alookup st.active_channels channel_id = none
            ∧ st.select_stream channel_id = none)) := by
  cases ha : alookup st.active_channels channel_id with
  | some active =>
    constructor
    · simp [stream_channel, ha, ok_stream_response]
    · simp [stream_channel, ha, ok_stream_response]
  | none =>
    cases hs : st.select_stream channel_id with
    | none =>
      constructor
      · simp [stream_channel, ha, hs, no_streams_response]
      · simp [stream_channel, ha, hs, no_streams_response]
    | some sel =>
      constructor
      · simp [stream_channel, ha, hs, ok_stream_response]
      · simp [stream_channel, ha, hs, ok_stream_response]

/-! #### C1 / C2: concrete traces through the engine -/

/-- State reached by: `PUT` accounts `1` and `2` (max 10), `PUT` channel `"ch"`
routed to `(10, account 1, "http://a")` then `(20, account 2, "http://b")`,
and one client request on `/stream/ch` (which starts the upstream on the first
pair). -/
def c1_pre : AppState :=
  (stream_channel
    (put_channel
      (put_account (put_account ⟨[], [], [], []⟩ 1 ⟨10⟩) 2 ⟨10⟩)
      "ch" ⟨[⟨10, [⟨1, "http://a"⟩]⟩, ⟨20, [⟨2, "http://b"⟩]⟩]⟩)
    "ch" "client1").1

/-- C1: at the failover step the engine selects the next pair
`(20, 2, "http://b")` and retries with it, but the registered Active Channel
still carries the originally selected `(10, 1, "http://a")` — the fields are
never updated in place (they are not mutable in the source), contradicting
the claim that after the update they equal the pair now being fetched. -/
theorem c1_failover_does_not_update_active_channel :
    (failover_step c1_pre "ch" ⟨10, 1, "http://a", 0⟩).2
        = .retry ⟨20, 2, "http://b", 1⟩
    ∧ (alookup (failover_step c1_pre "ch" ⟨10, 1, "http://a", 0⟩).1.active_channels
          "ch").map (fun a => (a.stream_id, a.account_id, a.url))
        = some (10, 1, "http://a")
    ∧ (alookup (failover_step c1_pre "ch" ⟨10, 1, "http://a", 0⟩).1.active_channels
          "ch").map (fun a => (a.stream_id, a.account_id, a.url))
        ≠ some (20, 2, "http://b") := by
  refine ⟨by decide, by decide, by decide⟩

/-- State reached by: `PUT` account `1` (max 10), `PUT` channels `"ch1"` and
`"ch2"` both routed to account `1`, one client on each (two live upstreams,
counter 2), then `DELETE /control/v1/channels/ch1` followed by the stopped
upstream task's exit cleanup (which `delete_channel` triggers via the stop
signal). -/
def c2_final : AppState :=
  upstream_exit_cleanup
    (delete_channel
      ((stream_channel
        ((stream_channel
          (put_channel
            (put_channel (put_account ⟨[], [], [], []⟩ 1 ⟨10⟩)
              "ch1" ⟨[⟨10, [⟨1, "http://a"⟩]⟩]⟩)
            "ch2" ⟨[⟨20, [⟨1, "http://b"⟩]⟩]⟩)
          "ch1" "client1").1)
        "ch2" "client2").1)
      "ch1")
    "ch1" 1

/-- C2: stopping `"ch1"` via delete released two units against account `1`
(one in `delete_channel`, one in the upstream task's cleanup), so the counter
reads `0` while one live Active Channel (`"ch2"`) is still bound to account
`1` — the counter does not equal the number of live channels on the
account. -/
theorem c2_delete_releases_two_units :
    alookup c2_final.accounts 1 = some ⟨10, 0⟩
    ∧ (c2_final.active_channels.filter (fun p => p.2.account_id == 1)).length = 1
    ∧ (alookup c2_final.accounts 1).map AccountState.active_connections
        ≠ some ((c2_final.active_channels.filter
            (fun p => p.2.account_id == 1)).length) := by
  refine ⟨by decide, by decide, by decide⟩

/-! #### C7: chunk assembly -/

theorem flushChunks_spec (buf : List Nat) :
    (∀ c ∈ (flushChunks buf).1, (c : List Nat).length = CHUNK_SIZE)
    ∧ (flushChunks buf).2.length < CHUNK_SIZE
    ∧ (flushChunks buf).1.flatten ++ (flushChunks buf).2 = buf := by
  rw [flushChunks]
  by_cases h : CHUNK_SIZE ≤ buf.length
  · simp only [dif_pos h]
    have ih := flushChunks_spec (buf.drop CHUNK_SIZE)
    refine ⟨?_, ih.2.1, ?_⟩
    · intro c hc
      rcases List.mem_cons.mp hc with rfl | hc
      · simp [List.length_take, Nat.min_eq_left h]
      · exact ih.1 c hc
    · simp only [List.flatten_cons, List.append_assoc, ih.2.2]
      exact List.take_append_drop _ _
  · simp only [dif_neg h]
    refine ⟨by simp, by omega, by simp⟩
termination_by buf.length
decreasing_by
  have hpos : 0 < CHUNK_SIZE := by decide
  simp only [List.length_drop]
  omega

/-- The data payloads carried by an event list, in order. -/
def data_bytes (events : List FetchEvent) : List Nat :=
  (events.map (fun e => match e with
    | .data d => d
    | .readErr _ => []
    | .stop => [])).flatten

theorem sum_lengths_of_full (l : List (List Nat))
    (h : ∀ c ∈ l, (c : List Nat).length = CHUNK_SIZE) :
    (l.map List.length).sum = l.length * CHUNK_SIZE := by
  induction l with
  | nil => simp
  | cons c cs ih =>
    have hc := h c (List.mem_cons_self _ _)
    simp only [List.map_cons, List.sum_cons, List.length_cons, hc,
      ih (fun x hx => h x (List.mem_cons_of_mem _ hx))]
    ring

theorem fetch_loop_bytes (events : List FetchEvent) (buf : List Nat) :
    (fetch_loop buf events).bytes
      = ((fetch_loop buf events).chunks.map List.length).sum := by
  induction events generalizing buf with
  | nil =>
    by_cases h : buf.isEmpty
    · simp [fetch_loop, h]
    · simp [fetch_loop, h]
  | cons e rest ih =>
    cases e with
    | stop => simp [fetch_loop]
    | readErr msg => simp [fetch_loop]
    | data d =>
      simp only [fetch_loop, List.map_append, List.sum_append, ih]
      rw [sum_lengths_of_full _ (flushChunks_spec (buf ++ d)).1]

theorem fetch_loop_chunks_shape (events : List FetchEvent) (buf : List Nat)
    (hbuf : buf.length < CHUNK_SIZE) :
    ∃ full rem, (fetch_loop buf events).chunks = full ++ rem
      ∧ (∀ c ∈ full, (c : List Nat).length = CHUNK_SIZE)
      ∧ (rem = []
          ∨ ∃ r, rem = [r] ∧ 0 < (r : List Nat).length ∧ r.length < CHUNK_SIZE
              ∧ (fetch_loop buf events).outcome = FetchOutcome.err "stream ended") := by
  induction events generalizing buf with
  | nil =>
    by_cases h : buf.isEmpty
    · exact ⟨[], [], by simp [fetch_loop, h], by simp, Or.inl rfl⟩
    · refine ⟨[], [buf], by simp [fetch_loop, h], by simp,
        Or.inr ⟨buf, rfl, ?_, hbuf, by simp [fetch_loop, h]⟩⟩
      cases buf with
      | nil => simp at h
      | cons a l => simp
  | cons e rest ih =>
    cases e with
    | stop => exact ⟨[], [], by simp [fetch_loop], by simp, Or.inl rfl⟩
    | readErr msg => exact ⟨[], [], by simp [fetch_loop], by simp, Or.inl rfl⟩
    | data d =>
      obtain ⟨full, rem, hchunks, hfull, hrem⟩ :=
        ih (flushChunks (buf ++ d)).2 (flushChunks_spec _).2.1
      refine ⟨(flushChunks (buf ++ d)).1 ++ full, rem, ?_, ?_, ?_⟩
      · simp [fetch_loop, hchunks]
      · intro c hc
        rcases List.mem_append.mp hc with hc | hc
        · exact (flushChunks_spec _).1 c hc
        · exact hfull c hc
      · rcases hrem with h | ⟨r, hr, h1, h2, h3⟩
        · exact Or.inl h
        · exact Or.inr ⟨r, hr, h1, h2, by simp [fetch_loop, h3]⟩

theorem fetch_loop_all_data (events : List FetchEvent) (buf : List Nat)
    (hdata : ∀ e ∈ events, ∃ d, e = FetchEvent.data d) :
    (fetch_loop buf events).outcome = FetchOutcome.err "stream ended"
    ∧ (fetch_loop buf events).chunks.flatten = buf ++ data_bytes events := by
  induction events generalizing buf with
  | nil =>
    by_cases h : buf.isEmpty
    · have hb : buf = [] := by
        cases buf with
        | nil => rfl
        | cons a l => simp at h
      simp [fetch_loop, h, data_bytes, hb]
    · simp [fetch_loop, h, data_bytes]
  | cons e rest ih =>
    obtain ⟨d, rfl⟩ := hdata e (List.mem_cons_self _ _)
    have hrest : ∀ x ∈ rest, ∃ d, x = FetchEvent.data d :=
      fun x hx => hdata x (List.mem_cons_of_mem _ hx)
    have ihh := ih (flushChunks (buf ++ d)).2 hrest
    constructor
    · simp [fetch_loop, ihh.1]
    · have hflat := (flushChunks_spec (buf ++ d)).2.2
      have hdb : data_bytes (FetchEvent.data d :: rest) = d ++ data_bytes rest := by
        simp [data_bytes]
      simp only [fetch_loop, List.flatten_append, ihh.2, hdb, ← List.append_assoc, hflat]

theorem fetch_loop_stop (pre post : List FetchEvent) (buf : List Nat)
    (hdata : ∀ e ∈ pre, ∃ d, e = FetchEvent.data d) :
    (fetch_loop buf (pre ++ FetchEvent.stop :: post)).outcome = FetchOutcome.ok := by
  induction pre generalizing buf with
  | nil => simp [fetch_loop]
  | cons e rest ih =>
    obtain ⟨d, rfl⟩ := hdata e (List.mem_cons_self _ _)
    simp [fetch_loop, ih _ (fun x hx => hdata x (List.mem_cons_of_mem _ hx))]

/-- C7: `fetch_upstream` publishes chunks of exactly `CHUNK_SIZE = 188 * 1024`
bytes sliced off the front of the accumulation buffer, adds each published
chunk's length to `bytes_transferred`, flushes the non-empty remainder
(shorter than `CHUNK_SIZE`) as a final chunk and returns a `"stream ended"`
error when the byte stream ends, returns an error without publishing anything
on a non-2xx status, and returns a clean non-error result on a stop-signal
change. -/
theorem c7_fetch_upstream_chunking (status : Nat) (events : List FetchEvent) :
    (is_success_status status = false →
      fetch_upstream status events
        = ⟨[], 0, FetchOutcome.err ("HTTP " ++ toString status)⟩)
    ∧ (fetch_upstream status events).bytes
        = ((fetch_upstream status events).chunks.map List.length).sum
    ∧ (∃ full rem, (fetch_upstream status events).chunks = full ++ rem
        ∧ (∀ c ∈ full, (c : List Nat).length = CHUNK_SIZE)
        ∧ (rem = []
            ∨ ∃ r, rem = [r] ∧ 0 < (r : List Nat).length ∧ r.length < CHUNK_SIZE
                ∧ (fetch_upstream status events).outcome
                    = FetchOutcome.err "stream ended"))
    ∧ ((∀ e ∈ events, ∃ d, e = FetchEvent.data d) → is_success_status status = true →
        (fetch_upstream status events).outcome = FetchOutcome.err "stream ended"
        ∧ (fetch_upstream status events).chunks.flatten = data_bytes events)
    ∧ (∀ pre post, events = pre ++ FetchEvent.stop :: post →
        (∀ e ∈ pre, ∃ d, e = FetchEvent.data d) → is_success_status status = true →
        (fetch_upstream status events).outcome = FetchOutcome.ok) := by
  by_cases hs : is_success_status status
  · have hrun : fetch_upstream status events = fetch_loop [] events := by
      simp [fetch_upstream, hs]
    refine ⟨fun hfalse => absurd hs (by simp [hfalse]), ?_, ?_, ?_, ?_⟩
    · rw [hrun]; exact fetch_loop_bytes events []
    · rw [hrun]
      exact fetch_loop_chunks_shape events [] (by decide)
    · intro hdata _
      rw [hrun]
      have h := fetch_loop_all_data events [] hdata
      exact ⟨h.1, by simpa using h.2⟩
    · intro pre post hev hdata _
      rw [hrun, hev]
      exact fetch_loop_stop pre post [] hdata
  · have hfail : fetch_upstream status events
        = ⟨[], 0, FetchOutcome.err ("HTTP " ++ toString status)⟩ := by
      simp [fetch_upstream, hs]
    simp only [Bool.not_eq_true] at hs
    refine ⟨fun _ => hfail, ?_, ?_, ?_, ?_⟩
    · rw [hfail]; rfl
    · exact ⟨[], [], by rw [hfail]; rfl, by simp, Or.inl rfl⟩
    · intro _ htrue
      exact absurd htrue (by simp [hs])
    · intro _ _ _ _ htrue
      exact absurd htrue (by simp [hs])

/-- C7 witness: a short body is flushed as the final remainder with a
`"stream ended"` error, a 404 publishes nothing, and a stop gives a clean
result. -/
theorem c7_witness :
    fetch_upstream 404 [FetchEvent.data [1]]
        = ⟨[], 0, FetchOutcome.err "HTTP 404"⟩
    ∧ (fetch_upstream 200 [FetchEvent.data [1, 2, 3]]).outcome
        = FetchOutcome.err "stream ended"
    ∧ (fetch_upstream 200 [FetchEvent.data [1, 2, 3]]).chunks.flatten = [1, 2, 3]
    ∧ (fetch_upstream 200 [FetchEvent.data [1], FetchEvent.stop]).outcome
        = FetchOutcome.ok := by
  have h404 := c7_fetch_upstream_chunking 404 [FetchEvent.data [1]]
  have h200 := c7_fetch_upstream_chunking 200 [FetchEvent.data [1, 2, 3]]
  have hstop := c7_fetch_upstream_chunking 200 [FetchEvent.data [1], FetchEvent.stop]
  have hdata : ∀ e ∈ [FetchEvent.data [1, 2, 3]], ∃ d, e = FetchEvent.data d := by
    intro e he
    rcases List.mem_singleton.mp he with rfl
    exact ⟨_, rfl⟩
  have hpre : ∀ e ∈ [FetchEvent.data [1]], ∃ d, e = FetchEvent.data d := by
    intro e he
    rcases List.mem_singleton.mp he with rfl
    exact ⟨_, rfl⟩
  refine ⟨h404.1 (by decide), (h200.2.2.2.1 hdata rfl).1, ?_, ?_⟩
  · exact (h200.2.2.2.1 hdata rfl).2
  · exact hstop.2.2.2.2 [FetchEvent.data [1]] [] rfl hpre rfl

/-! #### C6: sync reconciliation lemmas -/

theorem sync_remove_channel_skip (new : List String) (st : AppState) (x : String)
    (h : x ∈ new) : sync_remove_channel new st x = st := by
  simp [sync_remove_channel, h]

theorem sync_remove_channel_stops_mono (new : List String) (st : AppState)
    (x s : String) (h : s ∈ st.stops_sent) :
    s ∈ (sync_remove_channel new st x).stops_sent := by
  unfold sync_remove_channel
  by_cases hc : x ∈ new
  · simp [hc, h]
  · have hcb : ¬ (new.contains x = true) := by simpa using hc
    rw [if_neg hcb]
    cases hx : alookup st.active_channels x with
    | some a => exact List.mem_cons_of_mem _ h
    | none => exact h

theorem sync_remove_channel_routes_none (new : List String) (st : AppState)
    (x id : String) (h : alookup st.channel_routes id = none) :
    alookup (sync_remove_channel new st x).channel_routes id = none := by
  unfold sync_remove_channel
  by_cases hc : x ∈ new
  · simp [hc, h]
  · have hcb : ¬ (new.contains x = true) := by simpa using hc
    rw [if_neg hcb]
    cases hx : alookup st.active_channels x with
    | some a => simp [alookup_aremove, h]
    | none => simp [alookup_aremove, h]

theorem sync_remove_channel_actives_none (new : List String) (st : AppState)
    (x id : String) (h : alookup st.active_channels id = none) :
    alookup (sync_remove_channel new st x).active_channels id = none := by
  unfold sync_remove_channel
  by_cases hc : x ∈ new
  · simp [hc, h]
  · have hcb : ¬ (new.contains x = true) := by simpa using hc
    rw [if_neg hcb]
    cases hx : alookup st.active_channels x with
    | some a => simp [alookup_aremove, h]
    | none => exact h

theorem sync_remove_channel_preserves (new : List String) (st : AppState)
    (x id : String) (hid : id ∈ new) :
    alookup (sync_remove_channel new st x).channel_routes id
        = alookup st.channel_routes id
    ∧ alookup (sync_remove_channel new st x).active_channels id
        = alookup st.active_channels id
    ∧ (id ∈ (sync_remove_channel new st x).stops_sent ↔ id ∈ st.stops_sent) := by
  by_cases hc : x ∈ new
  · rw [sync_remove_channel_skip new st x hc]
    exact ⟨rfl, rfl, Iff.rfl⟩
  · have hxid : ¬ id = x := by
      intro he
      subst he
      exact hc hid
    unfold sync_remove_channel
    have hcb : ¬ (new.contains x = true) := by simpa using hc
    rw [if_neg hcb]
    cases hx : alookup st.active_channels x with
    | some a =>
      refine ⟨?_, ?_, ?_⟩
      · simp [alookup_aremove, hxid]
      · simp [alookup_aremove, hxid]
      · simp [List.mem_cons, hxid]
    | none =>
      refine ⟨?_, rfl, Iff.rfl⟩
      simp [alookup_aremove, hxid]

theorem sync_remove_channel_other (new : List String) (st : AppState)
    (x id : String) (hxid : ¬ id = x) :
    alookup (sync_remove_channel new st x).channel_routes id
        = alookup st.channel_routes id
    ∧ alookup (sync_remove_channel new st x).active_channels id
        = alookup st.active_channels id := by
  unfold sync_remove_channel
  by_cases hc : x ∈ new
  · simp [hc]
  · have hcb : ¬ (new.contains x = true) := by simpa using hc
    rw [if_neg hcb]
    cases hx : alookup st.active_channels x with
    | some a => exact ⟨by simp [alookup_aremove, hxid], by simp [alookup_aremove, hxid]⟩
    | none => exact ⟨by simp [alookup_aremove, hxid], rfl⟩

theorem sync_remove_channel_removes (new : List String) (st : AppState)
    (id : String) (hnot : id ∉ new) :
    alookup (sync_remove_channel new st id).channel_routes id = none
    ∧ alookup (sync_remove_channel new st id).active_channels id = none
    ∧ ((alookup st.active_channels id).isSome →
        id ∈ (sync_remove_channel new st id).stops_sent) := by
  unfold sync_remove_channel
  have hcb : ¬ (new.contains id = true) := by simpa using hnot
  rw [if_neg hcb]
  cases hx : alookup st.active_channels id with
  | some a =>
    exact ⟨by simp [alookup_aremove], by simp [alookup_aremove],
      fun _ => List.mem_cons_self _ _⟩
  | none => exact ⟨by simp [alookup_aremove], hx, by simp⟩

theorem prune_fold_stops_mono (new : List String) (L : List String) (st : AppState)
    (s : String) (h : s ∈ st.stops_sent) :
    s ∈ (L.foldl (sync_remove_channel new) st).stops_sent := by
  induction L generalizing st with
  | nil => exact h
  | cons x rest ih => exact ih _ (sync_remove_channel_stops_mono new st x s h)

theorem prune_fold_routes_none (new : List String) (L : List String) (st : AppState)
    (id : String) (h : alookup st.channel_routes id = none) :
    alookup ((L.foldl (sync_remove_channel new) st)).channel_routes id = none := by
  induction L generalizing st with
  | nil => exact h
  | cons x rest ih => exact ih _ (sync_remove_channel_routes_none new st x id h)

theorem prune_fold_actives_none (new : List String) (L : List String) (st : AppState)
    (id : String) (h : alookup st.active_channels id = none) :
    alookup ((L.foldl (sync_remove_channel new) st)).active_channels id = none := by
  induction L generalizing st with
  | nil => exact h
  | cons x rest ih => exact ih _ (sync_remove_channel_actives_none new st x id h)

theorem prune_fold_preserves (new : List String) (L : List String) (st : AppState)
    (id : String) (hid : id ∈ new) :
    alookup ((L.foldl (sync_remove_channel new) st)).channel_routes id
        = alookup st.channel_routes id
    ∧ alookup ((L.foldl (sync_remove_channel new) st)).active_channels id
        = alookup st.active_channels id
    ∧ (id ∈ (L.foldl (sync_remove_channel new) st).stops_sent ↔ id ∈ st.stops_sent) := by
  induction L generalizing st with
  | nil => exact ⟨rfl, rfl, Iff.rfl⟩
  | cons x rest ih =>
    have hstep := sync_remove_channel_preserves new st x id hid
    have hrest := ih (sync_remove_channel new st x)
    exact ⟨hrest.1.trans hstep.1, hrest.2.1.trans hstep.2.1,
      hrest.2.2.trans hstep.2.2⟩

theorem prune_fold_removes (new : List String) (L : List String) (st : AppState)
    (id : String) (hmem : id ∈ L) (hnot : id ∉ new) :
    alookup ((L.foldl (sync_remove_channel new) st)).channel_routes id = none
    ∧ alookup ((L.foldl (sync_remove_channel new) st)).active_channels id = none
    ∧ ((alookup st.active_channels id).isSome →
        id ∈ (L.foldl (sync_remove_channel new) st).stops_sent) := by
  induction L generalizing st with
  | nil => cases hmem
  | cons x rest ih =>
    by_cases hx : id = x
    · subst hx
      have hstep := sync_remove_channel_removes new st id hnot
      refine ⟨prune_fold_routes_none new rest _ id hstep.1,
        prune_fold_actives_none new rest _ id hstep.2.1, ?_⟩
      intro hs
      exact prune_fold_stops_mono new rest _ id (hstep.2.2 hs)
    · have hstep := sync_remove_channel_other new st x id hx
      rcases List.mem_cons.mp hmem with he | hmem'
      · exact absurd he hx
      · have ihh := ih (sync_remove_channel new st x) hmem'
        refine ⟨ihh.1, ihh.2.1, ?_⟩
        intro hs
        exact ihh.2.2 (by rw [hstep.2]; exact hs)

theorem insert_fold_other_fields (l : List (String × ChannelConfig)) (st : AppState) :
    (l.foldl sync_insert_channel st).active_channels = st.active_channels
    ∧ (l.foldl sync_insert_channel st).accounts = st.accounts
    ∧ (l.foldl sync_insert_channel st).stops_sent = st.stops_sent := by
  induction l generalizing st with
  | nil => exact ⟨rfl, rfl, rfl⟩
  | cons p rest ih => exact ih (sync_insert_channel st p)

theorem insert_fold_routes_not_mem (l : List (String × ChannelConfig)) (st : AppState)
    (id : String) (h : id ∉ l.map Prod.fst) :
    alookup (l.foldl sync_insert_channel st).channel_routes id
      = alookup st.channel_routes id := by
  induction l generalizing st with
  | nil => rfl
  | cons p rest ih =>
    have hid : ¬ id = p.1 := by
      intro he
      exact h (by simp [he])
    have hrest : id ∉ rest.map Prod.fst := fun hm => h (List.mem_cons_of_mem _ hm)
    rw [List.foldl_cons, ih _ hrest]
    simp [sync_insert_channel, alookup_ainsert, hid]

theorem insert_fold_routes_isSome (l : List (String × ChannelConfig)) (st : AppState)
    (id : String) :
    ((alookup st.channel_routes id).isSome →
      (alookup (l.foldl sync_insert_channel st).channel_routes id).isSome)
    ∧ (id ∈ l.map Prod.fst →
      (alookup (l.foldl sync_insert_channel st).channel_routes id).isSome) := by
  induction l generalizing st with
  | nil =>
    refine ⟨fun h => h, ?_⟩
    intro h
    simp at h
  | cons p rest ih =>
    constructor
    · intro h
      refine (ih (sync_insert_channel st p)).1 ?_
      by_cases hid : id = p.1
      · simp [sync_insert_channel, alookup_ainsert, hid]
      · simpa [sync_insert_channel, alookup_ainsert, hid] using h
    · intro h
      by_cases hid : id = p.1
      · refine (ih (sync_insert_channel st p)).1 ?_
        simp [sync_insert_channel, alookup_ainsert, hid]
      · have : id ∈ rest.map Prod.fst := by
          rcases List.mem_cons.mp h with he | hm
          · exact absurd he hid
          · exact hm
        exact (ih (sync_insert_channel st p)).2 this

theorem decrement_connections_isSome (aid a : Nat) (m : List (Nat × AccountState)) :
    (alookup (decrement_connections aid m) a).isSome = (alookup m a).isSome := by
  cases hl : alookup m aid with
  | none =>
    have heq : decrement_connections aid m = m := by
      simp [decrement_connections, hl]
    rw [heq]
  | some acc =>
    by_cases hpos : 0 < acc.active_connections
    · have heq : decrement_connections aid m
          = ainsert aid ⟨acc.max_connections, acc.active_connections - 1⟩ m := by
        simp [decrement_connections, hl, hpos]
      rw [heq]
      by_cases ha : a = aid
      · subst ha
        simp [alookup_ainsert, hl]
      · simp [alookup_ainsert, ha]
    · have heq : decrement_connections aid m = m := by
        simp [decrement_connections, hl, hpos]
      rw [heq]

theorem sync_remove_channel_accounts_isSome (new : List String) (st : AppState)
    (x : String) (a : Nat) :
    (alookup (sync_remove_channel new st x).accounts a).isSome
      = (alookup st.accounts a).isSome := by
  unfold sync_remove_channel
  by_cases hc : x ∈ new
  · simp [hc]
  · have hcb : ¬ (new.contains x = true) := by simpa using hc
    rw [if_neg hcb]
    cases hx : alookup st.active_channels x with
    | some ac => exact decrement_connections_isSome ac.account_id a st.accounts
    | none => rfl

theorem prune_fold_accounts_isSome (new : List String) (L : List String)
    (st : AppState) (a : Nat) :
    (alookup ((L.foldl (sync_remove_channel new) st)).accounts a).isSome
      = (alookup st.accounts a).isSome := by
  induction L generalizing st with
  | nil => rfl
  | cons x rest ih =>
    exact (ih (sync_remove_channel new st x)).trans
      (sync_remove_channel_accounts_isSome new st x a)

theorem sync_channels_phase_accounts_isSome (st : AppState) (req : SyncRequest) (a : Nat) :
    (alookup (sync_channels_phase st req).accounts a).isSome
      = (alookup st.accounts a).isSome := by
  unfold sync_channels_phase
  rw [(insert_fold_other_fields _ _).2.1]
  exact prune_fold_accounts_isSome _ _ st a

theorem account_prune_fold_other_fields (newA : List Nat) (L : List Nat) (st : AppState) :
    (L.foldl (sync_remove_account newA) st).channel_routes = st.channel_routes
    ∧ (L.foldl (sync_remove_account newA) st).active_channels = st.active_channels
    ∧ (L.foldl (sync_remove_account newA) st).stops_sent = st.stops_sent := by
  induction L generalizing st with
  | nil => exact ⟨rfl, rfl, rfl⟩
  | cons x rest ih =>
    have hstep : (sync_remove_account newA st x).channel_routes = st.channel_routes
        ∧ (sync_remove_account newA st x).active_channels = st.active_channels
        ∧ (sync_remove_account newA st x).stops_sent = st.stops_sent := by
      unfold sync_remove_account
      by_cases hc : (newA.contains x) = true
      · rw [if_pos hc]
        exact ⟨rfl, rfl, rfl⟩
      · rw [if_neg hc]
        exact ⟨rfl, rfl, rfl⟩
    have ihh := ih (sync_remove_account newA st x)
    exact ⟨ihh.1.trans hstep.1, ihh.2.1.trans hstep.2.1, ihh.2.2.trans hstep.2.2⟩

theorem account_prune_fold_mem_new (newA : List Nat) (L : List Nat) (st : AppState)
    (a : Nat) (ha : a ∈ newA) :
    alookup ((L.foldl (sync_remove_account newA) st)).accounts a
      = alookup st.accounts a := by
  induction L generalizing st with
  | nil => rfl
  | cons x rest ih =>
    have hstep : alookup (sync_remove_account newA st x).accounts a
        = alookup st.accounts a := by
      unfold sync_remove_account
      by_cases hc : (newA.contains x) = true
      · rw [if_pos hc]
      · rw [if_neg hc]
        have hax : ¬ a = x := by
          intro he
          subst he
          exact hc (by simpa using ha)
        simp [alookup_aremove, hax]
    exact (ih (sync_remove_account newA st x)).trans hstep

theorem account_prune_fold_none (newA : List Nat) (L : List Nat) (st : AppState)
    (a : Nat) (h : alookup st.accounts a = none) :
    alookup ((L.foldl (sync_remove_account newA) st)).accounts a = none := by
  induction L generalizing st with
  | nil => exact h
  | cons x rest ih =>
    refine ih (sync_remove_account newA st x) ?_
    unfold sync_remove_account
    by_cases hc : (newA.contains x) = true
    · rw [if_pos hc]
      exact h
    · rw [if_neg hc]
      simp [alookup_aremove, h]

theorem account_prune_fold_removes (newA : List Nat) (L : List Nat) (st : AppState)
    (a : Nat) (hmem : a ∈ L) (hnot : a ∉ newA) :
    alookup ((L.foldl (sync_remove_account newA) st)).accounts a = none := by
  induction L generalizing st with
  | nil => cases hmem
  | cons x rest ih =>
    by_cases hax : a = x
    · subst hax
      refine account_prune_fold_none newA rest _ a ?_
      unfold sync_remove_account
      have hcb : ¬ (newA.contains a = true) := by simpa using hnot
      rw [if_neg hcb]
      simp [alookup_aremove]
    · rcases List.mem_cons.mp hmem with he | hmem'
      · exact absurd he hax
      · exact ih (sync_remove_account newA st x) hmem'

theorem sync_upsert_account_other_fields (parse : String → Option Nat) (st : AppState)
    (p : String × AccountConfig) :
    (sync_upsert_account parse st p).channel_routes = st.channel_routes
    ∧ (sync_upsert_account parse st p).active_channels = st.active_channels
    ∧ (sync_upsert_account parse st p).stops_sent = st.stops_sent := by
  cases hp : parse p.1 with
  | none => refine ⟨?_, ?_, ?_⟩ <;> simp [sync_upsert_account, hp]
  | some b =>
    cases hl : alookup st.accounts b with
    | some e => refine ⟨?_, ?_, ?_⟩ <;> simp [sync_upsert_account, hp, hl]
    | none => refine ⟨?_, ?_, ?_⟩ <;> simp [sync_upsert_account, hp, hl]

theorem upsert_fold_other_fields (parse : String → Option Nat)
    (l : List (String × AccountConfig)) (st : AppState) :
    (l.foldl (sync_upsert_account parse) st).channel_routes = st.channel_routes
    ∧ (l.foldl (sync_upsert_account parse) st).active_channels = st.active_channels
    ∧ (l.foldl (sync_upsert_account parse) st).stops_sent = st.stops_sent := by
  induction l generalizing st with
  | nil => exact ⟨rfl, rfl, rfl⟩
  | cons p rest ih =>
    have hstep := sync_upsert_account_other_fields parse st p
    have ihh := ih (sync_upsert_account parse st p)
    exact ⟨ihh.1.trans hstep.1, ihh.2.1.trans hstep.2.1, ihh.2.2.trans hstep.2.2⟩

theorem sync_upsert_account_miss (parse : String → Option Nat) (st : AppState)
    (p : String × AccountConfig) (a : Nat) (h : ∀ b, parse p.1 = some b → ¬ b = a) :
    alookup (sync_upsert_account parse st p).accounts a = alookup st.accounts a := by
  cases hp : parse p.1 with
  | none =>
    have heq : sync_upsert_account parse st p = st := by
      simp [sync_upsert_account, hp]
    rw [heq]
  | some b =>
    have hba : ¬ a = b := fun he => h b hp he.symm
    cases hl : alookup st.accounts b with
    | some existing =>
      have heq : (sync_upsert_account parse st p).accounts
          = ainsert b ⟨p.2.max_connections, existing.active_connections⟩ st.accounts := by
        simp [sync_upsert_account, hp, hl]
      rw [heq]
      simp [alookup_ainsert, hba]
    | none =>
      have heq : (sync_upsert_account parse st p).accounts
          = ainsert b ⟨p.2.max_connections, 0⟩ st.accounts := by
        simp [sync_upsert_account, hp, hl]
      rw [heq]
      simp [alookup_ainsert, hba]

theorem sync_upsert_account_hit (parse : String → Option Nat) (st : AppState)
    (k : String) (cfg : AccountConfig) (a : Nat) (hk : parse k = some a) :
    alookup (sync_upsert_account parse st (k, cfg)).accounts a
      = some ⟨cfg.max_connections,
          match alookup st.accounts a with
          | some old => old.active_connections
          | none => 0⟩ := by
  cases hl : alookup st.accounts a with
  | some old =>
    have heq : (sync_upsert_account parse st (k, cfg)).accounts
        = ainsert a ⟨cfg.max_connections, old.active_connections⟩ st.accounts := by
      simp [sync_upsert_account, hk, hl]
    rw [heq]
    simp [alookup_ainsert]
  | none =>
    have heq : (sync_upsert_account parse st (k, cfg)).accounts
        = ainsert a ⟨cfg.max_connections, 0⟩ st.accounts := by
      simp [sync_upsert_account, hk, hl]
    rw [heq]
    simp [alookup_ainsert]

theorem upsert_fold_not_mem (parse : String → Option Nat)
    (l : List (String × AccountConfig)) (st : AppState) (a : Nat)
    (h : a ∉ l.filterMap (fun p => parse p.1)) :
    alookup (l.foldl (sync_upsert_account parse) st).accounts a
      = alookup st.accounts a := by
  induction l generalizing st with
  | nil => rfl
  | cons p rest ih =>
    have hhead : ∀ b, parse p.1 = some b → ¬ b = a := by
      intro b hb he
      subst he
      exact h (by simp [List.filterMap_cons, hb])
    have hrest : a ∉ rest.filterMap (fun p => parse p.1) := by
      intro hm
      refine h ?_
      simp only [List.filterMap_cons]
      cases parse p.1 with
      | none => exact hm
      | some b => exact List.mem_cons_of_mem _ hm
    rw [List.foldl_cons, ih _ hrest, sync_upsert_account_miss parse st p a hhead]

theorem upsert_fold_mem (parse : String → Option Nat)
    (l : List (String × AccountConfig)) (st : AppState) (k : String)
    (cfg : AccountConfig) (a : Nat)
    (hnd : (l.filterMap (fun p => parse p.1)).Nodup)
    (hkl : (k, cfg) ∈ l) (hk : parse k = some a) :
    alookup (l.foldl (sync_upsert_account parse) st).accounts a
      = some ⟨cfg.max_connections,
          match alookup st.accounts a with
          | some old => old.active_connections
          | none => 0⟩ := by
  induction l generalizing st with
  | nil => cases hkl
  | cons p rest ih =>
    rcases List.mem_cons.mp hkl with he | hmem
    · subst he
      have hparsed : (rest.filterMap (fun p => parse p.1)).Nodup
          ∧ a ∉ rest.filterMap (fun p => parse p.1) := by
        have : List.filterMap (fun p => parse p.1) ((k, cfg) :: rest)
            = a :: rest.filterMap (fun p => parse p.1) := by
          simp [List.filterMap_cons, hk]
        rw [this] at hnd
        exact ⟨hnd.of_cons, (List.nodup_cons.mp hnd).1⟩
      rw [List.foldl_cons, upsert_fold_not_mem parse rest _ a hparsed.2]
      exact sync_upsert_account_hit parse st k cfg a hk
    · have hrest_nd : (rest.filterMap (fun p => parse p.1)).Nodup := by
        cases hp : parse p.1 with
        | none => simpa [List.filterMap_cons, hp] using hnd
        | some b =>
          simp only [List.filterMap_cons, hp] at hnd
          exact hnd.of_cons
      have hhead : ∀ b, parse p.1 = some b → ¬ b = a := by
        intro b hb he
        rw [he] at hb
        simp only [List.filterMap_cons, hb] at hnd
        have hb' : a ∈ rest.filterMap (fun p => parse p.1) :=
          List.mem_filterMap.mpr ⟨(k, cfg), hmem, hk⟩
        exact (List.nodup_cons.mp hnd).1 hb'
      rw [List.foldl_cons]
      have hmiss := sync_upsert_account_miss parse st p a hhead
      rw [ih (sync_upsert_account parse st p) hrest_nd hmem, hmiss]

theorem sync_channels_phase_spec (st : AppState) (req : SyncRequest) :
    (∀ id, (alookup (sync_channels_phase st req).channel_routes id).isSome
        ↔ id ∈ req.channels.map Prod.fst)
    ∧ (∀ id, id ∉ req.channels.map Prod.fst →
        (alookup st.channel_routes id).isSome →
        alookup (sync_channels_phase st req).active_channels id = none
        ∧ ((alookup st.active_channels id).isSome →
            id ∈ (sync_channels_phase st req).stops_sent))
    ∧ (∀ id, id ∈ req.channels.map Prod.fst →
        alookup (sync_channels_phase st req).active_channels id
            = alookup st.active_channels id
        ∧ (id ∈ (sync_channels_phase st req).stops_sent ↔ id ∈ st.stops_sent)) := by
  have hmid : sync_channels_phase st req
      = req.channels.foldl sync_insert_channel
          ((st.channel_routes.map Prod.fst).foldl
            (sync_remove_channel (req.channels.map Prod.fst)) st) := rfl
  refine ⟨?_, ?_, ?_⟩
  · intro id
    rw [hmid]
    constructor
    · intro h
      by_contra hn
      rw [insert_fold_routes_not_mem _ _ _ hn] at h
      by_cases hold : id ∈ st.channel_routes.map Prod.fst
      · rw [(prune_fold_removes _ _ st id hold hn).1] at h
        cases h
      · rw [prune_fold_routes_none _ _ st id
          ((alookup_eq_none_iff_not_mem_keys _ _).mpr hold)] at h
        cases h
    · intro h
      exact (insert_fold_routes_isSome _ _ _).2 h
  · intro id hnot hrouted
    have hold : id ∈ st.channel_routes.map Prod.fst :=
      (alookup_isSome_iff_mem_keys _ _).mp hrouted
    have hrem := prune_fold_removes (req.channels.map Prod.fst)
      (st.channel_routes.map Prod.fst) st id hold hnot
    rw [hmid]
    constructor
    · rw [(insert_fold_other_fields _ _).1]
      exact hrem.2.1
    · intro hact
      rw [(insert_fold_other_fields _ _).2.2]
      exact hrem.2.2 hact
  · intro id hmem
    have hpres := prune_fold_preserves (req.channels.map Prod.fst)
      (st.channel_routes.map Prod.fst) st id hmem
    rw [hmid]
    constructor
    · rw [(insert_fold_other_fields _ _).1]
      exact hpres.2.1
    · rw [(insert_fold_other_fields _ _).2.2]
      exact hpres.2.2

theorem sync_accounts_phase_spec (parse : String → Option Nat) (st : AppState)
    (req : SyncRequest)
    (hnd : (req.accounts.filterMap (fun p => parse p.1)).Nodup) :
    (∀ (k : String) (cfg : AccountConfig) (a : Nat),
        (k, cfg) ∈ req.accounts → parse k = some a →
        alookup (sync_accounts_phase parse st req).accounts a
          = some ⟨cfg.max_connections,
              match alookup st.accounts a with
              | some old => old.active_connections
              | none => 0⟩)
    ∧ (∀ a, a ∉ req.accounts.filterMap (fun p => parse p.1) →
        alookup (sync_accounts_phase parse st req).accounts a = none)
    ∧ (sync_accounts_phase parse st req).channel_routes = st.channel_routes
    ∧ (sync_accounts_phase parse st req).active_channels = st.active_channels
    ∧ (sync_accounts_phase parse st req).stops_sent = st.stops_sent := by
  have hph : sync_accounts_phase parse st req
      = req.accounts.foldl (sync_upsert_account parse)
          ((st.accounts.map Prod.fst).foldl
            (sync_remove_account (req.accounts.filterMap (fun p => parse p.1))) st) := rfl
  refine ⟨?_, ?_, ?_, ?_, ?_⟩
  · intro k cfg a hkl hk
    have ha : a ∈ req.accounts.filterMap (fun p => parse p.1) :=
      List.mem_filterMap.mpr ⟨(k, cfg), hkl, hk⟩
    rw [hph, upsert_fold_mem parse req.accounts _ k cfg a hnd hkl hk,
      account_prune_fold_mem_new _ _ st a ha]
  · intro a hnot
    rw [hph, upsert_fold_not_mem parse req.accounts _ a hnot]
    by_cases hold : a ∈ st.accounts.map Prod.fst
    · exact account_prune_fold_removes _ _ st a hold hnot
    · exact account_prune_fold_none _ _ st a
        ((alookup_eq_none_iff_not_mem_keys _ _).mpr hold)
  · rw [hph, (upsert_fold_other_fields _ _ _).1, (account_prune_fold_other_fields _ _ _).1]
  · rw [hph, (upsert_fold_other_fields _ _ _).2.1,
      (account_prune_fold_other_fields _ _ _).2.1]
  · rw [hph, (upsert_fold_other_fields _ _ _).2.2,
      (account_prune_fold_other_fields _ _ _).2.2]

/-- C6: after a sequentially-run `sync`, the routing table's keys are exactly
the payload's channel ids; every previously routed channel absent from the
payload has its route removed and its Active Channel deregistered and stopped;
channels present in the payload keep their Active Channel untouched (same
registered instance, no stop signal sent); parseable account keys are upserted
with `max_connections` from the payload and `active_connections` preserved for
entries that exist after the channel phase (account presence is itself
unchanged by the channel phase) and initialized to `0` for new entries;
accounts outside the parseable payload key set are removed; non-parseable
account keys are skipped. -/
theorem c6_sync_reconciliation (parse : String → Option Nat) (st : AppState)
    (req : SyncRequest)
    (hnd : (req.accounts.filterMap (fun p => parse p.1)).Nodup) :
    (∀ id, (alookup (sync parse st req).channel_routes id).isSome
        ↔ id ∈ req.channels.map Prod.fst)
    ∧ (∀ id, (alookup st.channel_routes id).isSome →
        id ∉ req.channels.map Prod.fst →
        alookup (sync parse st req).channel_routes id = none
        ∧ alookup (sync parse st req).active_channels id = none
        ∧ ((alookup st.active_channels id).isSome →
            id ∈ (sync parse st req).stops_sent))
    ∧ (∀ id, id ∈ req.channels.map Prod.fst →
        alookup (sync parse st req).active_channels id
            = alookup st.active_channels id
        ∧ (id ∈ (sync parse st req).stops_sent ↔ id ∈ st.stops_sent))
    ∧ (∀ (k : String) (cfg : AccountConfig) (a : Nat),
        (k, cfg) ∈ req.accounts → parse k = some a →
        alookup (sync parse st req).accounts a
          = some ⟨cfg.max_connections,
              match alookup (sync_channels_phase st req).accounts a with
              | some old => old.active_connections
              | none => 0⟩)
    ∧ (∀ a, (alookup (sync_channels_phase st req).accounts a).isSome
          = (alookup st.accounts a).isSome)
    ∧ (∀ a, a ∉ req.accounts.filterMap (fun p => parse p.1) →
        alookup (sync parse st req).accounts a = none) := by
  have hch := sync_channels_phase_spec st req
  have hac := sync_accounts_phase_spec parse (sync_channels_phase st req) req hnd
  have hsync : sync parse st req
      = sync_accounts_phase parse (sync_channels_phase st req) req := rfl
  refine ⟨?_, ?_, ?_, ?_, ?_, ?_⟩
  · intro id
    rw [hsync, hac.2.2.1]
    exact (hch.1 id)
  · intro id hrouted hnot
    have h2 := hch.2.1 id hnot hrouted
    refine ⟨?_, ?_, ?_⟩
    · rw [hsync, hac.2.2.1]
      have := (hch.1 id)
      cases hv : alookup (sync_channels_phase st req).channel_routes id with
      | none => rfl
      | some v =>
        exact absurd (this.mp (by rw [hv]; rfl)) hnot
    · rw [hsync, hac.2.2.2.1]
      exact h2.1
    · intro hact
      rw [hsync, hac.2.2.2.2]
      exact h2.2 hact
  · intro id hmem
    have h3 := hch.2.2 id hmem
    refine ⟨?_, ?_⟩
    · rw [hsync, hac.2.2.2.1]
      exact h3.1
    · rw [hsync, hac.2.2.2.2]
      exact h3.2
  · intro k cfg a hkl hk
    rw [hsync]
    exact hac.1 k cfg a hkl hk
  · intro a
    exact sync_channels_phase_accounts_isSome st req a
  · intro a hnot
    rw [hsync]
    exact hac.2.1 a hnot

/-- Concrete parse function for the C6 witness (embeds `str::parse::<u64>` on
the keys that occur there). -/
def c6_parse (s : String) : Option Nat :=
  if s = "1" then some 1 else if s = "2" then some 2 else none

/-- Concrete pre-sync state for the C6 witness: channels `"ch1"` (live on
account `1`) and `"chOld"` (live on account `3`), accounts `1` and `3`. -/
def c6_pre : AppState :=
  { channel_routes := [("ch1", ⟨[⟨10, [⟨1, "http://a"⟩]⟩]⟩),
      ("chOld", ⟨[⟨30, [⟨3, "http://c"⟩]⟩]⟩)],
    active_channels := [("ch1", ⟨10, 1, "http://a", ["c1"]⟩),
      ("chOld", ⟨30, 3, "http://c", ["c2"]⟩)],
    accounts := [(1, ⟨5, 1⟩), (3, ⟨5, 1⟩)],
    stops_sent := [] }

/-- Concrete sync payload for the C6 witness: re-declares `"ch1"`, adds
`"ch2"`, omits `"chOld"`; declares accounts `"1"`, `"2"` and a non-parseable
key `"bad"`. -/
def c6_req : SyncRequest :=
  { channels := [("ch1", ⟨[⟨10, [⟨1, "http://a"⟩]⟩]⟩),
      ("ch2", ⟨[⟨20, [⟨2, "http://b"⟩]⟩]⟩)],
    accounts := [("1", ⟨9⟩), ("2", ⟨7⟩), ("bad", ⟨4⟩)] }

/-- C6 witness: the removed channel is stopped and deregistered, the kept
channel's Active Channel is untouched, the existing account keeps its live
count under a new `max`, the new account starts at `0`, the removed account is
gone, and the non-parseable key created nothing. -/
theorem c6_sync_witness :
    (alookup (sync c6_parse c6_pre c6_req).channel_routes "ch2").isSome = true
    ∧ alookup (sync c6_parse c6_pre c6_req).channel_routes "chOld" = none
    ∧ alookup (sync c6_parse c6_pre c6_req).active_channels "chOld" = none
    ∧ "chOld" ∈ (sync c6_parse c6_pre c6_req).stops_sent
    ∧ alookup (sync c6_parse c6_pre c6_req).active_channels "ch1"
        = some ⟨10, 1, "http://a", ["c1"]⟩
    ∧ alookup (sync c6_parse c6_pre c6_req).accounts 1 = some ⟨9, 1⟩
    ∧ alookup (sync c6_parse c6_pre c6_req).accounts 2 = some ⟨7, 0⟩
    ∧ alookup (sync c6_parse c6_pre c6_req).accounts 3 = none := by
  have h := c6_sync_reconciliation c6_parse c6_pre c6_req (by decide)
  obtain ⟨h1, h2, h3, h4, _, h6⟩ := h
  have hroutes := h2 "chOld" (by decide) (by decide)
  refine ⟨(h1 "ch2").mpr (by decide), hroutes.1, hroutes.2.1,
    hroutes.2.2 (by decide), ?_, ?_, ?_, h6 3 (by decide)⟩
  · exact ((h3 "ch1" (by decide)).1).trans (by decide)
  · exact (h4 "1" ⟨9⟩ 1 (by decide) (by decide)).trans (by decide)
  · exact (h4 "2" ⟨7⟩ 2 (by decide) (by decide)).trans (by decide)

/-- C4 witness: with account `1` full (`max = 1`, `active = 1`) and account
`2` unregistered, selection skips the first pair and returns the second. -/
theorem c4_select_stream_witness :
    AppState.select_stream
        ⟨[("ch", ⟨[⟨10, [⟨1, "http://a"⟩]⟩, ⟨20, [⟨2, "http://b"⟩]⟩]⟩)], [],
          [(1, ⟨1, 1⟩)], []⟩ "ch" = some (20, 2, "http://b")
    ∧ spec_select_stream
        ⟨[("ch", ⟨[⟨10, [⟨1, "http://a"⟩]⟩, ⟨20, [⟨2, "http://b"⟩]⟩]⟩)], [],
          [(1, ⟨1, 1⟩)], []⟩ "ch" = some (20, 2, "http://b") := by
  have h := c4_select_stream_first_admissible
    ⟨[("ch", ⟨[⟨10, [⟨1, "http://a"⟩]⟩, ⟨20, [⟨2, "http://b"⟩]⟩]⟩)], [],
      [(1, ⟨1, 1⟩)], []⟩ "ch"
  exact ⟨by decide, h.1.symm.trans (by decide)⟩

/-- C5 witness for the amended statement: with two distinct pairs the walk
resumes after the failed pair in both formulations. -/
theorem c5_amended_witness :
    AppState.select_next_stream
        ⟨[("ch", ⟨[⟨10, [⟨1, "http://a"⟩]⟩, ⟨20, [⟨2, "http://b"⟩]⟩]⟩)], [], [], []⟩
        "ch" 10 1 = some (20, 2, "http://b")
    ∧ amended_select_next_stream
        ⟨[("ch", ⟨[⟨10, [⟨1, "http://a"⟩]⟩, ⟨20, [⟨2, "http://b"⟩]⟩]⟩)], [], [], []⟩
        "ch" 10 1 = some (20, 2, "http://b") := by
  have h := c5_select_next_stream_amended
    ⟨[("ch", ⟨[⟨10, [⟨1, "http://a"⟩]⟩, ⟨20, [⟨2, "http://b"⟩]⟩]⟩)], [], [], []⟩
    "ch" 10 1
  exact ⟨by decide, h.symm.trans (by decide)⟩

/-- C8 witness: a registered Active Channel yields the `200` streaming
response; an unrouted channel yields the `503`. -/
theorem c8_stream_channel_witness :
    (stream_channel ⟨[], [("ch", ⟨10, 1, "http://a", []⟩)], [], []⟩ "ch" "c1").2
        = ⟨200, some "video/mp2t", some "no-cache", some "keep-alive", .stream⟩
    ∧ (stream_channel ⟨[], [], [], []⟩ "nochan" "c1").2
        = ⟨503, none, none, none, .text "No streams available"⟩ := by
  have h1 := c8_stream_channel_response ⟨[], [("ch", ⟨10, 1, "http://a", []⟩)], [], []⟩
    "ch" "c1"
  have h2 := c8_stream_channel_response ⟨[], [], [], []⟩ "nochan" "c1"
  exact ⟨h1.2.mpr (by decide), h2.1.mpr (by decide)⟩

end StreamProxy
